import Mathlib

/-!
Shallow embedding of the rate-limiting decision engine of `@shinijs/rate-limit`
(`RateLimitService` in the source): window parsing, the local-memory fallback
counting algorithm, the decrement operation, the opportunistic cleanup, the
health probe and the shutdown hook, together with proofs of the behavioural
properties the specification states about them.

Modelling conventions:
* Timestamps (`Date.now()`) are integers (`Int`); durations in milliseconds
  are naturals (`Nat`).  The numeric values reached by the claims are far
  below 2^53, where JavaScript numbers behave as exact integers.
* The in-memory `Map<string, number[]>` (`fallbackStorage`) is an
  association list `List (String × List Int)`; reachable engine states have
  duplicate-free keys, which the well-formedness predicate `Storage.WF`
  captures.
* The Redis backend is external to the engine.  Its observable effect on a
  `checkRateLimit` call is the outcome of the pipeline `exec` (a `zcard`
  count, or a failure); it is passed to the embedded `checkRateLimit` as an
  explicit `RedisOutcome` value.  Likewise the health probe outcome is an
  explicit boolean parameter.
* Exceptions are modelled with `Except`; operations the source never lets
  throw (`decrementRateLimit`, `healthCheck`, `onModuleDestroy`) are total
  functions.
-/

namespace RateLimit

/-- The only error the engine ever raises to a caller: `parseWindow`'s
`Invalid window format: ...` error, carrying the offending string. -/
inductive RateLimitError where
  | invalidWindowFormat (window : String)
deriving DecidableEq, Repr

/-- The fields of `RateLimitOptions` the decision engine reads: the request
limit and the window string (key generation and skip flags live in the
framework layer, outside the engine). -/
structure RateLimitOptions where
  requests : Nat
  window : String
deriving DecidableEq, Repr

/-- The `RateLimitResult` record returned by `checkRateLimit`. -/
structure RateLimitResult where
  allowed : Bool
  remaining : Nat
  resetTime : Int
  totalHits : Nat
deriving DecidableEq, Repr

/-- The per-key hit history: the `number[]` array of timestamps. -/
abbrev Timestamps := List Int

/-- The in-memory fallback map `fallbackStorage : Map<string, number[]>`,
as an association list. -/
abbrev Storage := List (String × Timestamps)

/-- `Map.get`: the value stored under the first entry for the key. -/
def Storage.get (st : Storage) (k : String) : Option Timestamps :=
  match st with
  | [] => none
  | (k', v) :: rest => if k' = k then some v else Storage.get rest k

/-- `Map.set`: overwrite the entry for the key, or append a fresh one. -/
def Storage.set (st : Storage) (k : String) (v : Timestamps) : Storage :=
  match st with
  | [] => [(k, v)]
  | (k', v') :: rest =>
    if k' = k then (k, v) :: rest else (k', v') :: Storage.set rest k v

/-- `Map.delete`: drop the entry for the key. -/
def Storage.delete (st : Storage) (k : String) : Storage :=
  match st with
  | [] => []
  | (k', v') :: rest =>
    if k' = k then rest else (k', v') :: Storage.delete rest k

/-- The keys of the map, in entry order. -/
def Storage.keys (st : Storage) : List String :=
  st.map Prod.fst

/-- Reachable `Map` states have pairwise distinct keys. -/
abbrev Storage.WF (st : Storage) : Prop :=
  st.keys.Nodup

/-- No key is mapped to an empty timestamp array. -/
abbrev Storage.NoEmptyVals (st : Storage) : Prop :=
  ∀ p ∈ st, p.2 ≠ []

/-- The millisecond multiplier of a window unit character: the `units`
record in `parseWindow` (`s`, `m`, `h`, `d`), `none` for any other
character. -/
def unitMs : Char → Option Nat
  | 's' => some 1000
  | 'm' => some 60000
  | 'h' => some 3600000
  | 'd' => some 86400000
  | _ => none

/-- The numeric value of a digit string, as computed by
`parseInt(amount, 10)` on the digits captured by `(\d+)`. -/
def digitsVal (ds : List Char) : Nat :=
  ds.foldl (fun acc c => acc * 10 + (c.toNat - 48)) 0

/-- `parseWindow`: match the window string against `^(\d+)([smhd])$` and
multiply the captured amount by the unit multiplier; any string not of
that shape raises `Invalid window format`. -/
def parseWindow (window : String) : Except RateLimitError Nat :=
  match window.data.getLast? with
  | none => .error (.invalidWindowFormat window)
  | some u =>
    if window.data.dropLast.isEmpty then .error (.invalidWindowFormat window)
    else if window.data.dropLast.all Char.isDigit then
      match unitMs u with
      | some m => .ok (digitsVal window.data.dropLast * m)
      | none => .error (.invalidWindowFormat window)
    else .error (.invalidWindowFormat window)

/-- `cleanupFallbackStorage`: prune every key's history of entries at or
before `windowStart`, deleting keys whose pruned history is empty. -/
def cleanupFallbackStorage (st : Storage) (windowStart : Int) : Storage :=
  match st with
  | [] => []
  | (k, ts) :: rest =>
    let valid := ts.filter (fun t => decide (windowStart < t))
    if valid.length = 0 then cleanupFallbackStorage rest windowStart
    else (k, valid) :: cleanupFallbackStorage rest windowStart

/-- The body of `fallbackRateLimit` after the window has been parsed:
fetch (or lazily create) the key's history, filter out timestamps at or
before `windowStart = now - windowMs`, push `now`, store the result back,
compute the counters, and run the opportunistic cleanup when the map has
grown past 1000 keys. -/
def fallbackCore (storage : Storage) (key : String) (limit : Nat) (now : Int)
    (windowMs : Nat) : RateLimitResult × Storage :=
  let windowStart : Int := now - windowMs
  let timestamps := (storage.get key).getD []
  let storage1 := if (storage.get key).isSome then storage else storage.set key []
  let validTimestamps :=
    timestamps.filter (fun t => decide (windowStart < t)) ++ [now]
  let storage2 := storage1.set key validTimestamps
  let hits := validTimestamps.length
  let storage3 :=
    if storage2.length > 1000 then cleanupFallbackStorage storage2 windowStart
    else storage2
  ({ allowed := decide (hits ≤ limit)
     remaining := limit - hits
     resetTime := now + windowMs
     totalHits := hits }, storage3)

/-- `fallbackRateLimit`: parse the window (propagating the parse error),
then run the local-memory counting algorithm. -/
def fallbackRateLimit (storage : Storage) (key : String)
    (options : RateLimitOptions) (now : Int) :
    Except RateLimitError (RateLimitResult × Storage) :=
  match parseWindow options.window with
  | .error e => .error e
  | .ok windowMs => .ok (fallbackCore storage key options.requests now windowMs)

/-- The outcome of the Redis pipeline transaction as observed by
`redisRateLimit`: the `zcard` count of the key's sorted set after the
prune-and-insert (already coerced through `(totalHits as number) || 0`),
or any failure (`exec` returning null, a step error, a thrown transport
error). -/
inductive RedisOutcome where
  | ok (count : Nat)
  | err
deriving DecidableEq, Repr

/-- `redisRateLimit`: given the transaction outcome, compute the result
record from the count, or propagate the failure to `checkRateLimit`'s
catch block. -/
def redisRateLimit (options : RateLimitOptions) (now : Int) (windowMs : Nat)
    (outcome : RedisOutcome) : Except Unit RateLimitResult :=
  match outcome with
  | .err => .error ()
  | .ok hits =>
    .ok { allowed := decide (hits ≤ options.requests)
          remaining := options.requests - hits
          resetTime := now + windowMs
          totalHits := hits }

/-- The engine state a call observes: whether `this.redis` is non-null, and
the local fallback map. -/
structure EngineState where
  hasRedis : Bool
  fallbackStorage : Storage
deriving DecidableEq, Repr

/-- `checkRateLimit`: parse the window (this is the only error that escapes
to the caller), then use Redis when attached — falling back to the
local-memory path for this call when the transaction fails — and the
local-memory path otherwise. -/
def checkRateLimit (st : EngineState) (key : String)
    (options : RateLimitOptions) (now : Int) (outcome : RedisOutcome) :
    Except RateLimitError (RateLimitResult × EngineState) :=
  match parseWindow options.window with
  | .error e => .error e
  | .ok windowMs =>
    if st.hasRedis then
      match redisRateLimit options now windowMs outcome with
      | .ok r => .ok (r, st)
      | .error _ =>
        match fallbackRateLimit st.fallbackStorage key options now with
        | .error e => .error e
        | .ok rs => .ok (rs.1, { st with fallbackStorage := rs.2 })
    else
      match fallbackRateLimit st.fallbackStorage key options now with
      | .error e => .error e
      | .ok rs => .ok (rs.1, { st with fallbackStorage := rs.2 })

/-- The local-memory branch of `decrementRateLimit`: pop the most recent
timestamp of the key's history; delete the key when the history becomes
empty; no-op when the key has no (or an empty) history.  Total — the
source never throws here. -/
def decrementFallback (storage : Storage) (key : String) : Storage :=
  match storage.get key with
  | none => storage
  | some ts =>
    if ts.length = 0 then storage
    else
      let ts2 := ts.dropLast
      if ts2.length = 0 then storage.delete key
      else storage.set key ts2

/-- `decrementRateLimit`: local-memory branch when Redis is not attached;
with Redis attached the operation touches only the Redis sorted set and
swallows every error, leaving the engine state unchanged. -/
def decrementRateLimit (st : EngineState) (key : String) : EngineState :=
  if st.hasRedis then st
  else { st with fallbackStorage := decrementFallback st.fallbackStorage key }

/-- `healthCheck`: `false` when no Redis connection is attached, otherwise
the outcome of the `ping` probe; the engine state is never touched. -/
def healthCheck (st : EngineState) (pingOk : Bool) : Bool × EngineState :=
  if st.hasRedis then (pingOk, st) else (false, st)

/-- `onModuleDestroy`: disconnect Redis (the handle field itself is not
nulled out) and clear the fallback map. -/
def onModuleDestroy (st : EngineState) : EngineState :=
  { st with fallbackStorage := [] }

/-- Iterate `fallbackRateLimit` over a list of call timestamps for one key,
collecting the per-call results; `none` when any call raises. -/
def runFallback (key : String) (options : RateLimitOptions) :
    Storage → List Int → Option (List RateLimitResult × Storage)
  | storage, [] => some ([], storage)
  | storage, now :: rest =>
    match fallbackRateLimit storage key options now with
    | .error _ => none
    | .ok step =>
      match runFallback key options step.2 rest with
      | none => none
      | some acc => some (step.1 :: acc.1, acc.2)

/-! ### Association-list map lemmas -/

theorem Storage.get_set_self (st : Storage) (k : String) (v : Timestamps) :
    (st.set k v).get k = some v := by
  induction st with
  | nil => simp [Storage.set, Storage.get]
  | cons p rest ih =>
    obtain ⟨k', v'⟩ := p
    by_cases h : k' = k <;> simp [Storage.set, Storage.get, h, ih]

theorem Storage.get_set_ne (st : Storage) (k k' : String) (v : Timestamps)
    (h : k' ≠ k) : (st.set k v).get k' = st.get k' := by
  have hk : k ≠ k' := Ne.symm h
  induction st with
  | nil => simp [Storage.set, Storage.get, hk]
  | cons p rest ih =>
    obtain ⟨a, b⟩ := p
    by_cases ha : a = k
    · subst ha
      simp [Storage.set, Storage.get, hk]
    · simp only [Storage.set, if_neg ha, Storage.get]
      by_cases ha' : a = k' <;> simp [ha', ih]

theorem Storage.set_set (st : Storage) (k : String) (a b : Timestamps) :
    (st.set k a).set k b = st.set k b := by
  induction st with
  | nil => simp [Storage.set]
  | cons p rest ih =>
    obtain ⟨k', v'⟩ := p
    by_cases h : k' = k <;> simp [Storage.set, h, ih]

theorem Storage.get_eq_none_of_not_mem (st : Storage) (k : String)
    (h : k ∉ st.keys) : st.get k = none := by
  induction st with
  | nil => simp [Storage.get]
  | cons p rest ih =>
    obtain ⟨a, b⟩ := p
    simp only [Storage.keys, List.map_cons, List.mem_cons, not_or] at h
    have hak : ¬ a = k := fun hh => h.1 hh.symm
    simp [Storage.get, hak, ih (by simpa [Storage.keys] using h.2)]

theorem Storage.keys_set (st : Storage) (k : String) (v : Timestamps) :
    (st.set k v).keys = if k ∈ st.keys then st.keys else st.keys ++ [k] := by
  induction st with
  | nil => simp [Storage.set, Storage.keys]
  | cons p rest ih =>
    obtain ⟨a, b⟩ := p
    by_cases h : a = k
    · subst h
      simp [Storage.set, Storage.keys]
    · have hka : ¬ k = a := fun hh => h hh.symm
      simp only [Storage.set, if_neg h, Storage.keys, List.map_cons] at ih ⊢
      rw [ih]
      by_cases hm : k ∈ List.map Prod.fst rest
      · simp [hm, hka]
      · simp [hm, hka]

theorem Storage.WF_set (st : Storage) (k : String) (v : Timestamps)
    (h : st.WF) : (st.set k v).WF := by
  show ((st.set k v).keys).Nodup
  rw [Storage.keys_set]
  by_cases hm : k ∈ st.keys
  · simpa [hm] using h
  · simp only [hm, if_false]
    simpa [List.nodup_append] using ⟨h, hm⟩

theorem Storage.mem_set (st : Storage) (k : String) (v : Timestamps)
    (p : String × Timestamps) : p ∈ st.set k v → p = (k, v) ∨ p ∈ st := by
  induction st with
  | nil => intro h; simpa [Storage.set] using h
  | cons q rest ih =>
    obtain ⟨a, b⟩ := q
    intro h
    by_cases ha : a = k
    · subst ha
      simp only [Storage.set, eq_self_iff_true, if_true, List.mem_cons] at h
      rcases h with h | h
      · exact Or.inl h
      · exact Or.inr (List.mem_cons_of_mem _ h)
    · simp only [Storage.set, if_neg ha, List.mem_cons] at h
      rcases h with h | h
      · exact Or.inr (by simp [h])
      · rcases ih h with h' | h'
        · exact Or.inl h'
        · exact Or.inr (List.mem_cons_of_mem _ h')

theorem Storage.delete_sublist (st : Storage) (k : String) :
    (st.delete k).Sublist st := by
  induction st with
  | nil => simp [Storage.delete]
  | cons p rest ih =>
    obtain ⟨a, b⟩ := p
    by_cases h : a = k
    · rw [Storage.delete, if_pos h]
      exact List.sublist_cons_self (a, b) rest
    · simpa [Storage.delete, h] using List.Sublist.cons₂ (a, b) ih

theorem Storage.WF_delete (st : Storage) (k : String) (h : st.WF) :
    (st.delete k).WF := by
  exact h.sublist (List.Sublist.map Prod.fst (Storage.delete_sublist st k))

theorem Storage.get_delete_self (st : Storage) (k : String) (h : st.WF) :
    (st.delete k).get k = none := by
  induction st with
  | nil => simp [Storage.delete, Storage.get]
  | cons p rest ih =>
    obtain ⟨a, b⟩ := p
    simp only [Storage.WF, Storage.keys, List.map_cons, List.nodup_cons] at h
    by_cases ha : a = k
    · subst ha
      simpa [Storage.delete] using
        Storage.get_eq_none_of_not_mem rest a h.1
    · simp [Storage.delete, ha, Storage.get, ih h.2]

theorem Storage.get_delete_ne (st : Storage) (k k' : String) (h : k' ≠ k) :
    (st.delete k).get k' = st.get k' := by
  induction st with
  | nil => simp [Storage.delete]
  | cons p rest ih =>
    obtain ⟨a, b⟩ := p
    by_cases ha : a = k
    · subst ha
      simp [Storage.delete, Storage.get, Ne.symm h]
    · simp only [Storage.delete, if_neg ha, Storage.get]
      by_cases ha' : a = k' <;> simp [ha', ih]

theorem Storage.keys_cleanup_sublist (st : Storage) (w : Int) :
    (cleanupFallbackStorage st w).keys.Sublist st.keys := by
  induction st with
  | nil => simp [cleanupFallbackStorage, Storage.keys]
  | cons p rest ih =>
    obtain ⟨a, ts⟩ := p
    simp only [cleanupFallbackStorage]
    by_cases h : (ts.filter (fun t => decide (w < t))).length = 0
    · rw [if_pos h]
      exact ih.trans (by
        show (Storage.keys rest).Sublist (Storage.keys ((a, ts) :: rest))
        simp only [Storage.keys, List.map_cons]
        exact List.sublist_cons_self a (List.map Prod.fst rest))
    · rw [if_neg h]
      simpa [Storage.keys] using List.Sublist.cons₂ a ih

theorem Storage.WF_cleanup (st : Storage) (w : Int) (h : st.WF) :
    (cleanupFallbackStorage st w).WF :=
  h.sublist (Storage.keys_cleanup_sublist st w)

theorem Storage.get_cleanup (st : Storage) (w : Int) (k : String) (h : st.WF) :
    (cleanupFallbackStorage st w).get k =
      (st.get k).bind (fun ts =>
        if (ts.filter (fun t => decide (w < t))).length = 0 then none
        else some (ts.filter (fun t => decide (w < t)))) := by
  induction st with
  | nil => simp [cleanupFallbackStorage, Storage.get]
  | cons p rest ih =>
    obtain ⟨a, ts⟩ := p
    have h' : a ∉ Storage.keys rest ∧ Storage.WF rest := by
      simpa [Storage.WF, Storage.keys, List.nodup_cons] using h
    by_cases ha : a = k
    · subst ha
      by_cases hf : (ts.filter (fun t => decide (w < t))).length = 0
      · have hnone : (cleanupFallbackStorage rest w).get a = none :=
          Storage.get_eq_none_of_not_mem _ a fun hm =>
            h'.1 ((Storage.keys_cleanup_sublist rest w).subset hm)
        simp only [cleanupFallbackStorage, if_pos hf, hnone]
        have hf2 : ∀ x ∈ ts, x ≤ w := by simpa using hf
        simp [Storage.get]
        exact (if_pos hf2).symm
      · simp only [cleanupFallbackStorage, if_neg hf]
        simp [Storage.get, hf]
        simpa using hf
    · by_cases hf : (ts.filter (fun t => decide (w < t))).length = 0
      · rw [cleanupFallbackStorage]
        simp only [if_pos hf]
        rw [ih h'.2]
        simp [Storage.get, ha]
      · rw [cleanupFallbackStorage]
        simp only [if_neg hf]
        simp [Storage.get, ha, ih h'.2]

theorem Storage.noEmpty_set (st : Storage) (k : String) (v : Timestamps)
    (h : st.NoEmptyVals) (hv : v ≠ []) : (st.set k v).NoEmptyVals := by
  intro p hp
  rcases Storage.mem_set st k v p hp with h' | h'
  · simpa [h'] using hv
  · exact h p h'

theorem Storage.noEmpty_delete (st : Storage) (k : String)
    (h : st.NoEmptyVals) : (st.delete k).NoEmptyVals :=
  fun p hp => h p ((Storage.delete_sublist st k).subset hp)

theorem Storage.noEmpty_cleanup (st : Storage) (w : Int) :
    (cleanupFallbackStorage st w).NoEmptyVals := by
  induction st with
  | nil => intro p hp; simp [cleanupFallbackStorage] at hp
  | cons q rest ih =>
    obtain ⟨a, ts⟩ := q
    intro p hp
    rw [cleanupFallbackStorage] at hp
    by_cases hf : (ts.filter (fun t => decide (w < t))).length = 0
    · rw [if_pos hf] at hp
      exact ih p hp
    · rw [if_neg hf] at hp
      rcases List.mem_cons.mp hp with hp | hp
      · subst hp
        simpa [List.length_eq_zero] using hf
      · exact ih p hp

/-! ### Behaviour of one local-memory check -/

/-- The hit list a local-memory check at time `now` with window `windowMs`
stores under the key and counts: the surviving old hits followed by the
current call's own hit. -/
def validAfter (storage : Storage) (key : String) (now : Int)
    (windowMs : Nat) : Timestamps :=
  ((storage.get key).getD []).filter
    (fun t => decide (now - (windowMs : Int) < t)) ++ [now]

theorem validAfter_ne_nil (storage : Storage) (key : String) (now : Int)
    (windowMs : Nat) : validAfter storage key now windowMs ≠ [] := by
  simp [validAfter]

theorem filter_validAfter (storage : Storage) (key : String) (now : Int)
    (windowMs : Nat) (hW : 1 ≤ windowMs) :
    (validAfter storage key now windowMs).filter
        (fun t => decide (now - (windowMs : Int) < t)) =
      validAfter storage key now windowMs := by
  unfold validAfter
  rw [List.filter_append, List.filter_filter]
  have hnow : (now - (windowMs : Int) < now) := by omega
  simp [hnow, Bool.and_self]

theorem fallbackCore_fst (storage : Storage) (key : String) (limit : Nat)
    (now : Int) (windowMs : Nat) :
    (fallbackCore storage key limit now windowMs).1 =
      { allowed := decide ((validAfter storage key now windowMs).length ≤ limit)
        remaining := limit - (validAfter storage key now windowMs).length
        resetTime := now + windowMs
        totalHits := (validAfter storage key now windowMs).length } := by
  by_cases hk : (storage.get key).isSome
  · simp [fallbackCore, validAfter, hk]
  · rw [Option.not_isSome_iff_eq_none] at hk
    simp [fallbackCore, validAfter, hk]

theorem fallbackCore_snd_eq (storage : Storage) (key : String) (limit : Nat)
    (now : Int) (windowMs : Nat) :
    (fallbackCore storage key limit now windowMs).2 =
      if (storage.set key (validAfter storage key now windowMs)).length > 1000
      then cleanupFallbackStorage
        (storage.set key (validAfter storage key now windowMs))
        (now - windowMs)
      else storage.set key (validAfter storage key now windowMs) := by
  by_cases hk : (storage.get key).isSome
  · simp [fallbackCore, validAfter, hk]
  · rw [Option.not_isSome_iff_eq_none] at hk
    simp [fallbackCore, validAfter, hk, Storage.set_set]

theorem fallbackCore_snd_get (storage : Storage) (key : String) (limit : Nat)
    (now : Int) (windowMs : Nat) (hW : 1 ≤ windowMs) (hWF : storage.WF) :
    ((fallbackCore storage key limit now windowMs).2).get key =
      some (validAfter storage key now windowMs) := by
  rw [fallbackCore_snd_eq]
  by_cases hlen : (storage.set key (validAfter storage key now windowMs)).length > 1000
  · rw [if_pos hlen,
      Storage.get_cleanup _ _ _ (Storage.WF_set storage key _ hWF),
      Storage.get_set_self]
    rw [Option.some_bind]
    rw [filter_validAfter storage key now windowMs hW]
    rw [if_neg (by simpa [List.length_eq_zero] using
      validAfter_ne_nil storage key now windowMs)]
  · rw [if_neg hlen, Storage.get_set_self]

theorem fallbackCore_snd_WF (storage : Storage) (key : String) (limit : Nat)
    (now : Int) (windowMs : Nat) (hWF : storage.WF) :
    ((fallbackCore storage key limit now windowMs).2).WF := by
  rw [fallbackCore_snd_eq]
  by_cases hlen : (storage.set key (validAfter storage key now windowMs)).length > 1000
  · rw [if_pos hlen]
    exact Storage.WF_cleanup _ _ (Storage.WF_set storage key _ hWF)
  · rw [if_neg hlen]
    exact Storage.WF_set storage key _ hWF

theorem fallbackCore_snd_noEmpty (storage : Storage) (key : String)
    (limit : Nat) (now : Int) (windowMs : Nat) (h : storage.NoEmptyVals) :
    ((fallbackCore storage key limit now windowMs).2).NoEmptyVals := by
  rw [fallbackCore_snd_eq]
  by_cases hlen : (storage.set key (validAfter storage key now windowMs)).length > 1000
  · rw [if_pos hlen]
    exact Storage.noEmpty_cleanup _ _
  · rw [if_neg hlen]
    exact Storage.noEmpty_set _ _ _ h (validAfter_ne_nil storage key now windowMs)

theorem decrementFallback_noEmpty (storage : Storage) (key : String)
    (h : storage.NoEmptyVals) : (decrementFallback storage key).NoEmptyVals := by
  unfold decrementFallback
  cases hg : storage.get key with
  | none => exact h
  | some ts =>
    by_cases h0 : ts.length = 0
    · simpa [h0] using h
    · simp only [h0, if_false]
      by_cases hd : ts.dropLast.length = 0
      · simpa [hd] using Storage.noEmpty_delete storage key h
      · simp only [hd, if_false]
        exact Storage.noEmpty_set storage key ts.dropLast h
          (fun hnil => hd (by simp [hnil]))

theorem fallbackRateLimit_eq_core (storage : Storage) (key : String)
    (options : RateLimitOptions) (now : Int) (windowMs : Nat)
    (h : parseWindow options.window = .ok windowMs) :
    fallbackRateLimit storage key options now =
      .ok (fallbackCore storage key options.requests now windowMs) := by
  simp [fallbackRateLimit, h]

/-! ### Window parsing lemmas -/

/-- A window string consists of one-or-more digits followed by a single
unit character in `{s, m, h, d}`: the language of `^(\d+)([smhd])$`. -/
def WindowForm (s : String) : Prop :=
  ∃ ds u m, s.data = ds ++ [u] ∧ ds ≠ [] ∧ ds.all Char.isDigit = true ∧
    unitMs u = some m

theorem parseWindow_ok_of_form (ds : List Char) (u : Char) (m : Nat)
    (hds : ds ≠ []) (hdig : ds.all Char.isDigit = true)
    (hu : unitMs u = some m) :
    parseWindow (String.mk (ds ++ [u])) = .ok (digitsVal ds * m) := by
  have h1 : (String.mk (ds ++ [u])).data = ds ++ [u] := rfl
  unfold parseWindow
  rw [h1, List.getLast?_concat, List.dropLast_concat]
  simp [hds, hdig, hu]

theorem parseWindow_error_of_not_form (s : String) (h : ¬ WindowForm s) :
    parseWindow s = .error (.invalidWindowFormat s) := by
  unfold parseWindow
  cases hl : s.data.getLast? with
  | none => rfl
  | some u =>
    dsimp only
    have hne : s.data ≠ [] := by
      intro hnil
      rw [hnil] at hl
      simp at hl
    have hu : s.data.getLast hne = u := by
      rw [List.getLast?_eq_getLast s.data hne, Option.some_inj] at hl
      exact hl
    have hsplit : s.data.dropLast ++ [u] = s.data := by
      rw [← hu]
      exact List.dropLast_append_getLast hne
    by_cases he : s.data.dropLast.isEmpty
    · rw [if_pos he]
    · rw [if_neg he]
      by_cases hd : s.data.dropLast.all Char.isDigit
      · rw [if_pos hd]
        cases hm : unitMs u with
        | none => rfl
        | some m =>
          exact absurd ⟨s.data.dropLast, u, m, hsplit.symm,
            by simpa [List.isEmpty_iff] using he, hd, hm⟩ h
      · rw [if_neg hd]

theorem parseWindow_form_of_ok (s : String) (v : Nat)
    (h : parseWindow s = .ok v) : WindowForm s := by
  by_contra hnot
  rw [parseWindow_error_of_not_form s hnot] at h
  exact Except.noConfusion h

theorem unitMs_pos (u : Char) (m : Nat) (h : unitMs u = some m) : 0 < m := by
  unfold unitMs at h
  split at h <;> first
  | exact Except.noConfusion h
  | (injection h with h; omega)
  | exact Option.noConfusion h

/-! ### Sequences of local-memory checks -/

theorem runFallback_spec (key : String) (options : RateLimitOptions)
    (windowMs : Nat) (hw : parseWindow options.window = .ok windowMs)
    (hW : 1 ≤ windowMs) :
    ∀ (times : List Int) (hist : Timestamps) (storage : Storage),
      storage.WF → (storage.get key).getD [] = hist →
      (∀ t ∈ hist, ∀ u ∈ times, u - (windowMs : Int) < t) →
      times.Pairwise (fun a b => b - (windowMs : Int) < a) →
      ∃ (results : List RateLimitResult) (storageF : Storage),
        runFallback key options storage times = some (results, storageF) ∧
        (storageF.get key).getD [] = hist ++ times ∧
        storageF.WF ∧
        ∀ (j : Nat) (t : Int), times[j]? = some t →
          results[j]? = some
            { allowed := decide (hist.length + j + 1 ≤ options.requests)
              remaining := options.requests - (hist.length + j + 1)
              resetTime := t + windowMs
              totalHits := hist.length + j + 1 } := by
  intro times
  induction times with
  | nil =>
    intro hist storage hWF hget _ _
    exact ⟨[], storage, rfl, by simpa using hget, hWF, by
      intro j t hj
      simp at hj⟩
  | cons now rest ih =>
    intro hist storage hWF hget hwin hpw
    have hstep := fallbackRateLimit_eq_core storage key options now windowMs hw
    have hfst := fallbackCore_fst storage key options.requests now windowMs
    have hget2 := fallbackCore_snd_get storage key options.requests now windowMs hW hWF
    have hWF2 := fallbackCore_snd_WF storage key options.requests now windowMs hWF
    have hvalid : validAfter storage key now windowMs = hist ++ [now] := by
      unfold validAfter
      rw [hget]
      congr 1
      apply List.filter_eq_self.mpr
      intro t ht
      simpa using hwin t ht now (by simp)
    have hpw' := List.pairwise_cons.mp hpw
    obtain ⟨results, storageF, hrun, hgetF, hWFF, hidx⟩ :=
      ih (hist ++ [now]) (fallbackCore storage key options.requests now windowMs).2
        hWF2
        (by rw [hget2, hvalid]; rfl)
        (by
          intro t ht u hu
          rcases List.mem_append.mp ht with ht' | ht'
          · exact hwin t ht' u (List.mem_cons_of_mem _ hu)
          · rw [List.mem_singleton.mp ht']
            exact hpw'.1 u hu)
        hpw'.2
    refine ⟨(fallbackCore storage key options.requests now windowMs).1 :: results,
      storageF, ?_, ?_, hWFF, ?_⟩
    · simp only [runFallback, hstep, hrun]
    · rw [hgetF]
      simp
    · intro j t hj
      cases j with
      | zero =>
        simp only [List.getElem?_cons_zero, Option.some_inj] at hj
        subst hj
        simp only [List.getElem?_cons_zero, Option.some_inj]
        rw [hfst, hvalid]
        simp
      | succ j =>
        simp only [List.getElem?_cons_succ] at hj ⊢
        have := hidx j t hj
        rw [this]
        have harith : (hist ++ [now]).length + j + 1 = hist.length + (j + 1) + 1 := by
          simp
          omega
        rw [harith]

/-! ### Claim theorems -/

/-- C3: `parseWindow` maps every string of one-or-more digits followed by a
single unit character in `{s, m, h, d}` (multipliers s=1000, m=60000,
h=3600000, d=86400000 milliseconds) to the digit value times the unit
multiplier — so `30s` gives 30000, `5m` gives 300000, `1h` gives 3600000,
`7d` gives 604800000 — and fails with the invalid-window-format error on
every string not of that form, including `invalid`, `5`, `5x` and the
empty string. -/
theorem parseWindow_C3 :
    (∀ (ds : List Char) (u : Char) (m : Nat),
      ds ≠ [] → ds.all Char.isDigit = true → unitMs u = some m →
      parseWindow (String.mk (ds ++ [u])) = .ok (digitsVal ds * m)) ∧
    unitMs 's' = some 1000 ∧ unitMs 'm' = some 60000 ∧
    unitMs 'h' = some 3600000 ∧ unitMs 'd' = some 86400000 ∧
    parseWindow "30s" = .ok 30000 ∧ parseWindow "5m" = .ok 300000 ∧
    parseWindow "1h" = .ok 3600000 ∧ parseWindow "7d" = .ok 604800000 ∧
    (∀ s : String, ¬ WindowForm s →
      parseWindow s = .error (.invalidWindowFormat s)) ∧
    parseWindow "invalid" = .error (.invalidWindowFormat "invalid") ∧
    parseWindow "5" = .error (.invalidWindowFormat "5") ∧
    parseWindow "5x" = .error (.invalidWindowFormat "5x") ∧
    parseWindow "" = .error (.invalidWindowFormat "") :=
  ⟨parseWindow_ok_of_form, rfl, rfl, rfl, rfl, rfl, rfl, rfl, rfl,
    parseWindow_error_of_not_form, rfl, rfl, rfl, rfl⟩

/-- C3 witness: the positive branch of the characterization applied to the
concrete window `30s`. -/
theorem parseWindow_C3_witness :
    ((['3', '0'] : List Char) ≠ [] ∧
      (['3', '0'] : List Char).all Char.isDigit = true ∧
      unitMs 's' = some 1000) ∧
    parseWindow (String.mk (['3', '0'] ++ ['s'])) = .ok (digitsVal ['3', '0'] * 1000) :=
  ⟨⟨by decide, by decide, rfl⟩,
    parseWindow_C3.1 ['3', '0'] 's' 1000 (by decide) (by decide) rfl⟩

/-- C4 counterexample: the window string `0s` matches the source's regular
expression (the digit run may be `0`), so `parseWindow` returns 0
milliseconds instead of failing — refuting both the strict positivity of
successful parses and the claim that `0s` raises. -/
theorem parseWindow_C4_counterexample : parseWindow "0s" = .ok 0 := rfl

/-- C4 (amended): a successful parse of a digits-plus-unit string whose
digit value is positive yields a strictly positive number of milliseconds;
the string `0s`, whose digit value is zero, instead parses successfully
to 0. -/
theorem parseWindow_pos_C4 :
    (∀ (ds : List Char) (u : Char) (m : Nat),
      ds ≠ [] → ds.all Char.isDigit = true → unitMs u = some m →
      1 ≤ digitsVal ds →
      parseWindow (String.mk (ds ++ [u])) = .ok (digitsVal ds * m) ∧
      1 ≤ digitsVal ds * m) ∧
    parseWindow "0s" = .ok 0 := by
  refine ⟨?_, rfl⟩
  intro ds u m hds hdig hu hpos
  exact ⟨parseWindow_ok_of_form ds u m hds hdig hu,
    Nat.mul_pos hpos (unitMs_pos u m hu)⟩

/-- C4 witness: the amended positivity applied to the concrete window
`30s`. -/
theorem parseWindow_pos_C4_witness :
    ((['3', '0'] : List Char) ≠ [] ∧
      (['3', '0'] : List Char).all Char.isDigit = true ∧
      unitMs 's' = some 1000 ∧ 1 ≤ digitsVal ['3', '0']) ∧
    (parseWindow (String.mk (['3', '0'] ++ ['s'])) = .ok (digitsVal ['3', '0'] * 1000) ∧
      1 ≤ digitsVal ['3', '0'] * 1000) :=
  ⟨⟨by decide, by decide, rfl, by decide⟩,
    parseWindow_pos_C4.1 ['3', '0'] 's' 1000 (by decide) (by decide) rfl (by decide)⟩

/-- C2: whenever the policy's window string parses, the result record of a
check satisfies all three equations — `allowed` holds exactly when
`totalHits ≤ limit`, `remaining = max(0, limit − totalHits)`, and
`resetTime = now + windowMs` — on the local-memory path, and the
shared-store path computes the same formulas from its transaction count. -/
theorem checkRateLimit_formulas_C2 (storage : Storage) (key : String)
    (options : RateLimitOptions) (now : Int) (windowMs : Nat)
    (hw : parseWindow options.window = .ok windowMs) :
    (∀ (r : RateLimitResult) (storage1 : Storage),
      fallbackRateLimit storage key options now = .ok (r, storage1) →
        (r.allowed = true ↔ r.totalHits ≤ options.requests) ∧
        (r.remaining : Int) = max 0 ((options.requests : Int) - (r.totalHits : Int)) ∧
        r.resetTime = now + windowMs) ∧
    (∀ (hits : Nat) (r : RateLimitResult),
      redisRateLimit options now windowMs (.ok hits) = .ok r →
        (r.allowed = true ↔ r.totalHits ≤ options.requests) ∧
        (r.remaining : Int) = max 0 ((options.requests : Int) - (r.totalHits : Int)) ∧
        r.resetTime = now + windowMs) := by
  constructor
  · intro r storage1 h
    rw [fallbackRateLimit_eq_core storage key options now windowMs hw] at h
    injection h with h
    have hr : r = (fallbackCore storage key options.requests now windowMs).1 :=
      (congrArg Prod.fst h).symm
    subst hr
    rw [fallbackCore_fst]
    refine ⟨by simp, by dsimp only; omega, rfl⟩
  · intro hits r h
    simp only [redisRateLimit, Except.ok.injEq] at h
    subst h
    refine ⟨by simp, by dsimp only; omega, rfl⟩

/-- C2 witness: the formulas at a concrete local-memory call. -/
theorem checkRateLimit_formulas_C2_witness :
    parseWindow "1m" = .ok 60000 ∧
    fallbackRateLimit [] "u1" { requests := 3, window := "1m" } 100 =
      .ok ({ allowed := true, remaining := 2, resetTime := 60100,
             totalHits := 1 }, [("u1", [100])]) ∧
    ((true = true ↔ (1 : Nat) ≤ 3) ∧
      (((2 : Nat) : Int) = max 0 ((3 : Int) - (1 : Int))) ∧
      ((60100 : Int) = 100 + ((60000 : Nat) : Int))) :=
  ⟨rfl, rfl,
    (checkRateLimit_formulas_C2 [] "u1" { requests := 3, window := "1m" }
        100 60000 rfl).1
      { allowed := true, remaining := 2, resetTime := 60100, totalHits := 1 }
      [("u1", [100])] rfl⟩

/-- C5: a local-memory check at time `now` with parsed window `W` counts
only hits strictly newer than `now − W`: `totalHits` is one more than the
number of stored hits with timestamp greater than `now − W`, the stored
history becomes exactly those surviving hits followed by `now`, and every
stored hit with timestamp at or before `now − W` is gone from the key's
history after the call. -/
theorem checkRateLimit_window_C5 (storage : Storage) (key : String)
    (options : RateLimitOptions) (now : Int) (windowMs : Nat)
    (hw : parseWindow options.window = .ok windowMs) (hW : 1 ≤ windowMs)
    (hWF : storage.WF) :
    ∃ (r : RateLimitResult) (storage1 : Storage),
      fallbackRateLimit storage key options now = .ok (r, storage1) ∧
      r.totalHits = (((storage.get key).getD []).filter
        (fun t => decide (now - (windowMs : Int) < t))).length + 1 ∧
      storage1.get key = some (((storage.get key).getD []).filter
        (fun t => decide (now - (windowMs : Int) < t)) ++ [now]) ∧
      (∀ t ∈ (storage.get key).getD [], t ≤ now - (windowMs : Int) →
        ∀ l, storage1.get key = some l → t ∉ l) := by
  refine ⟨(fallbackCore storage key options.requests now windowMs).1,
    (fallbackCore storage key options.requests now windowMs).2,
    ?_, ?_, ?_, ?_⟩
  · rw [fallbackRateLimit_eq_core storage key options now windowMs hw]
  · rw [fallbackCore_fst]
    simp [validAfter]
  · rw [fallbackCore_snd_get storage key options.requests now windowMs hW hWF]
    rfl
  · intro t ht hold l hl
    rw [fallbackCore_snd_get storage key options.requests now windowMs hW hWF] at hl
    rw [Option.some_inj] at hl
    subst hl
    intro hmem
    rcases List.mem_append.mp hmem with hm | hm
    · have := List.of_mem_filter hm
      simp at this
      omega
    · rw [List.mem_singleton.mp hm] at hold
      omega

/-- C5 witness: a stale hit (timestamp 0) is dropped and not counted by a
check at time 70000 with a one-minute window. -/
theorem checkRateLimit_window_C5_witness :
    (parseWindow "1m" = .ok 60000 ∧ (1 : Nat) ≤ 60000 ∧
      Storage.WF [("u1", [(0 : Int)])]) ∧
    (∃ (r : RateLimitResult) (storage1 : Storage),
      fallbackRateLimit [("u1", [(0 : Int)])] "u1"
          { requests := 3, window := "1m" } 70000 = .ok (r, storage1) ∧
      r.totalHits = (((Storage.get [("u1", [(0 : Int)])] "u1").getD []).filter
        (fun t => decide (70000 - ((60000 : Nat) : Int) < t))).length + 1 ∧
      Storage.get storage1 "u1" =
        some (((Storage.get [("u1", [(0 : Int)])] "u1").getD []).filter
          (fun t => decide (70000 - ((60000 : Nat) : Int) < t)) ++ [70000]) ∧
      (∀ t ∈ (Storage.get [("u1", [(0 : Int)])] "u1").getD [],
        t ≤ 70000 - ((60000 : Nat) : Int) →
        ∀ l, Storage.get storage1 "u1" = some l → t ∉ l)) :=
  ⟨⟨rfl, by decide, by decide⟩,
    checkRateLimit_window_C5 [("u1", [(0 : Int)])] "u1"
      { requests := 3, window := "1m" } 70000 60000 rfl (by decide) (by decide)⟩

/-- C6: on the local-memory path, decrementing a key whose history holds at
least one hit removes exactly the most recently appended timestamp (so a
subsequent check whose window still covers the remaining hits counts
`totalHits = h` rather than `h + 1`), deletes the key entirely when its
history becomes empty, and is a state-unchanged no-op when the key has no
history; the operation is a total function — it never raises. -/
theorem decrementRateLimit_C6 (storage : Storage) (key : String)
    (ts : Timestamps) (hWF : storage.WF) :
    (storage.get key = some ts → ts ≠ [] →
      ((decrementFallback storage key).get key =
        (if ts.dropLast.length = 0 then none else some ts.dropLast)) ∧
      (decrementFallback storage key).WF) ∧
    (storage.get key = none → decrementFallback storage key = storage) ∧
    (∀ (options : RateLimitOptions) (now : Int) (windowMs : Nat),
      parseWindow options.window = .ok windowMs → 1 ≤ windowMs →
      storage.get key = some ts → ts ≠ [] →
      (∀ t ∈ ts, now - (windowMs : Int) < t) →
      ∃ (r : RateLimitResult) (storage2 : Storage),
        fallbackRateLimit (decrementFallback storage key) key options now =
          .ok (r, storage2) ∧ r.totalHits = ts.length) := by
  have hdec : storage.get key = some ts → ts ≠ [] →
      decrementFallback storage key =
        (if ts.dropLast.length = 0 then storage.delete key
         else storage.set key ts.dropLast) := by
    intro hg hne
    have hlen : ¬ ts.length = 0 := by simpa using hne
    simp only [decrementFallback, hg, hlen, if_false]
  refine ⟨?_, ?_, ?_⟩
  · intro hg hne
    rw [hdec hg hne]
    by_cases hd : ts.dropLast.length = 0
    · rw [if_pos hd, if_pos hd]
      exact ⟨Storage.get_delete_self storage key hWF,
        Storage.WF_delete storage key hWF⟩
    · rw [if_neg hd, if_neg hd]
      exact ⟨Storage.get_set_self storage key ts.dropLast,
        Storage.WF_set storage key ts.dropLast hWF⟩
  · intro hg
    simp [decrementFallback, hg]
  · intro options now windowMs hw hW hg hne hwin
    have hget2 : ((decrementFallback storage key).get key).getD [] =
        ts.dropLast := by
      rw [hdec hg hne]
      by_cases hd : ts.dropLast.length = 0
      · rw [if_pos hd, Storage.get_delete_self storage key hWF]
        simpa using (List.length_eq_zero.mp hd).symm
      · rw [if_neg hd, Storage.get_set_self]
        rfl
    refine ⟨(fallbackCore (decrementFallback storage key) key
        options.requests now windowMs).1,
      (fallbackCore (decrementFallback storage key) key
        options.requests now windowMs).2,
      fallbackRateLimit_eq_core _ key options now windowMs hw, ?_⟩
    rw [fallbackCore_fst]
    dsimp only
    unfold validAfter
    rw [hget2]
    have hfilter : ts.dropLast.filter (fun t => decide (now - (windowMs : Int) < t)) =
        ts.dropLast :=
      List.filter_eq_self.mpr
        (fun t ht => by simpa using hwin t (List.dropLast_subset ts ht))
    rw [hfilter, List.length_append, List.length_dropLast,
      List.length_singleton]
    have hne' : ts.length ≠ 0 := by simpa using hne
    omega

/-- C6 witness: decrementing a two-hit history drops the newest hit, and
the next check inside the window counts 2 again. -/
theorem decrementRateLimit_C6_witness :
    (Storage.WF [("u1", [(10 : Int), 20])] ∧
      Storage.get [("u1", [(10 : Int), 20])] "u1" = some [10, 20] ∧
      ([(10 : Int), 20] : Timestamps) ≠ [] ∧
      parseWindow "1m" = .ok 60000 ∧ (1 : Nat) ≤ 60000 ∧
      (∀ t ∈ ([(10 : Int), 20] : Timestamps), 30 - ((60000 : Nat) : Int) < t)) ∧
    ((Storage.get (decrementFallback [("u1", [(10 : Int), 20])] "u1") "u1" =
        (if ([(10 : Int), 20] : Timestamps).dropLast.length = 0 then none
         else some ([(10 : Int), 20] : Timestamps).dropLast)) ∧
      Storage.WF (decrementFallback [("u1", [(10 : Int), 20])] "u1")) ∧
    (∃ (r : RateLimitResult) (storage2 : Storage),
      fallbackRateLimit (decrementFallback [("u1", [(10 : Int), 20])] "u1")
          "u1" { requests := 3, window := "1m" } 30 = .ok (r, storage2) ∧
      r.totalHits = ([(10 : Int), 20] : Timestamps).length) :=
  ⟨⟨by decide, by decide, by decide, rfl, by decide, by decide⟩,
    (decrementRateLimit_C6 [("u1", [(10 : Int), 20])] "u1" [10, 20]
        (by decide)).1 (by decide) (by decide),
    (decrementRateLimit_C6 [("u1", [(10 : Int), 20])] "u1" [10, 20]
        (by decide)).2.2 { requests := 3, window := "1m" } 30 60000 rfl
      (by decide) (by decide) (by decide) (by decide)⟩

/-- C7: `totalHits` always includes the current call's own hit (it is at
least 1), so a first call for a fresh key against a limit of 1 yields
`allowed = true` with `remaining = 0`, and against a limit of 0 every call
yields `allowed = false`. -/
theorem checkRateLimit_ownHit_C7 (storage : Storage) (key : String)
    (options : RateLimitOptions) (now : Int) (windowMs : Nat)
    (hw : parseWindow options.window = .ok windowMs) :
    (∀ (r : RateLimitResult) (storage1 : Storage),
      fallbackRateLimit storage key options now = .ok (r, storage1) →
        1 ≤ r.totalHits) ∧
    (storage.get key = none → options.requests = 1 →
      ∃ storage1 : Storage, fallbackRateLimit storage key options now =
        .ok ({ allowed := true, remaining := 0,
               resetTime := now + windowMs, totalHits := 1 }, storage1)) ∧
    (options.requests = 0 →
      ∀ (r : RateLimitResult) (storage1 : Storage),
        fallbackRateLimit storage key options now = .ok (r, storage1) →
          r.allowed = false) := by
  refine ⟨?_, ?_, ?_⟩
  · intro r storage1 h
    rw [fallbackRateLimit_eq_core storage key options now windowMs hw] at h
    injection h with h
    have hr : r = (fallbackCore storage key options.requests now windowMs).1 :=
      (congrArg Prod.fst h).symm
    subst hr
    rw [fallbackCore_fst]
    dsimp only
    unfold validAfter
    rw [List.length_append, List.length_singleton]
    omega
  · intro hkey hlim
    have h1 : (fallbackCore storage key options.requests now windowMs).1 =
        { allowed := true, remaining := 0, resetTime := now + (windowMs : Int),
          totalHits := 1 } := by
      rw [fallbackCore_fst]
      unfold validAfter
      rw [hkey]
      simp [hlim]
    refine ⟨(fallbackCore storage key options.requests now windowMs).2, ?_⟩
    rw [fallbackRateLimit_eq_core storage key options now windowMs hw, ← h1]
  · intro hlim r storage1 h
    rw [fallbackRateLimit_eq_core storage key options now windowMs hw] at h
    injection h with h
    have hr : r = (fallbackCore storage key options.requests now windowMs).1 :=
      (congrArg Prod.fst h).symm
    subst hr
    rw [fallbackCore_fst]
    dsimp only
    rw [hlim]
    simp [validAfter]

/-- C7 witness: a fresh key against limit 1 at the concrete time 100. -/
theorem checkRateLimit_ownHit_C7_witness :
    (parseWindow "1m" = .ok 60000 ∧
      Storage.get ([] : Storage) "u1" = none ∧ (1 : Nat) = 1) ∧
    (∃ storage1 : Storage,
      fallbackRateLimit [] "u1" { requests := 1, window := "1m" } 100 =
        .ok ({ allowed := true, remaining := 0,
               resetTime := 100 + ((60000 : Nat) : Int),
               totalHits := 1 }, storage1)) :=
  ⟨⟨rfl, rfl, rfl⟩,
    (checkRateLimit_ownHit_C7 [] "u1" { requests := 1, window := "1m" }
        100 60000 rfl).2.1 rfl rfl⟩

/-- C8: `checkRateLimit` raises an error to the caller exactly when the
policy's window string is malformed — the invalid-window-format parse
error propagates unchanged — and when the shared-store transaction fails
the call instead returns the result computed by the local-memory path for
that single call. -/
theorem checkRateLimit_errors_C8 (st : EngineState) (key : String)
    (options : RateLimitOptions) (now : Int) (outcome : RedisOutcome) :
    (∀ e : RateLimitError,
      checkRateLimit st key options now outcome = .error e ↔
        parseWindow options.window = .error e) ∧
    (∀ windowMs : Nat, parseWindow options.window = .ok windowMs →
      outcome = .err →
      checkRateLimit st key options now outcome =
        (fallbackRateLimit st.fallbackStorage key options now).map
          (fun p => (p.1, { st with fallbackStorage := p.2 }))) := by
  cases hp : parseWindow options.window with
  | error e' =>
    constructor
    · intro e
      simp only [checkRateLimit, hp]
      constructor
      · intro h
        injection h with h
        rw [h]
      · intro h
        injection h with h
        rw [h]
    · intro windowMs hwm
      exact Except.noConfusion hwm
  | ok w =>
    constructor
    · intro e
      simp only [checkRateLimit, hp]
      by_cases hr : st.hasRedis = true
      · rw [if_pos hr]
        cases outcome with
        | ok c =>
          simp [redisRateLimit, hp]
        | err =>
          simp only [redisRateLimit]
          rw [fallbackRateLimit_eq_core st.fallbackStorage key options now w hp]
          simp [hp]
      · rw [if_neg hr]
        rw [fallbackRateLimit_eq_core st.fallbackStorage key options now w hp]
        simp [hp]
    · intro windowMs hwm houtcome
      subst houtcome
      simp only [checkRateLimit, hp]
      rw [fallbackRateLimit_eq_core st.fallbackStorage key options now w hp]
      by_cases hr : st.hasRedis = true
      · rw [if_pos hr]
        rfl
      · rw [if_neg hr]
        rfl

/-- C8 witness: a malformed window propagates its parse error, and a
failing shared-store transaction falls back to the local result. -/
theorem checkRateLimit_errors_C8_witness :
    (checkRateLimit { hasRedis := true, fallbackStorage := [] } "u1"
        { requests := 3, window := "bogus" } 100 RedisOutcome.err =
        .error (.invalidWindowFormat "bogus") ↔
      parseWindow "bogus" = .error (.invalidWindowFormat "bogus")) ∧
    (parseWindow "1m" = .ok 60000 ∧ RedisOutcome.err = RedisOutcome.err) ∧
    checkRateLimit { hasRedis := true, fallbackStorage := [] } "u1"
        { requests := 3, window := "1m" } 100 RedisOutcome.err =
      (fallbackRateLimit [] "u1" { requests := 3, window := "1m" } 100).map
        (fun p => ({ hasRedis := true, fallbackStorage := [] } : EngineState).1
          |> fun _ => (p.1, { hasRedis := true, fallbackStorage := p.2 })) :=
  ⟨(checkRateLimit_errors_C8 { hasRedis := true, fallbackStorage := [] }
      "u1" { requests := 3, window := "bogus" } 100 RedisOutcome.err).1
      (.invalidWindowFormat "bogus"),
    ⟨rfl, rfl⟩,
    (checkRateLimit_errors_C8 { hasRedis := true, fallbackStorage := [] }
      "u1" { requests := 3, window := "1m" } 100 RedisOutcome.err).2
      60000 rfl rfl⟩

/-- C9: `healthCheck` returns false whenever no shared-store connection is
attached, and for every state it leaves the engine state — the backend
handle and the local fallback map — unchanged. -/
theorem healthCheck_C9 (st : EngineState) (pingOk : Bool) :
    (st.hasRedis = false → (healthCheck st pingOk).1 = false) ∧
    (healthCheck st pingOk).2 = st := by
  unfold healthCheck
  by_cases hr : st.hasRedis = true
  · simp [hr]
  · simp [hr]

/-- C9 witness: a never-connected engine reports unhealthy and is left
untouched. -/
theorem healthCheck_C9_witness :
    (EngineState.hasRedis { hasRedis := false, fallbackStorage := [] } = false) ∧
    (healthCheck { hasRedis := false, fallbackStorage := [] } true).1 = false ∧
    (healthCheck { hasRedis := false, fallbackStorage := [] } true).2 =
      { hasRedis := false, fallbackStorage := [] } :=
  ⟨rfl,
    (healthCheck_C9 { hasRedis := false, fallbackStorage := [] } true).1 rfl,
    (healthCheck_C9 { hasRedis := false, fallbackStorage := [] } true).2⟩

/-- C10: after every completed engine operation the local fallback map
never maps a key to an empty timestamp list — a completed check preserves
the invariant (the touched key retains at least the current call's own
hit), decrement deletes a key it empties, the opportunistic cleanup leaves
no empty histories from any state, and shutdown clears the map. -/
theorem noEmpty_invariant_C10 (st : EngineState) :
    (∀ (key : String) (options : RateLimitOptions) (now : Int)
      (outcome : RedisOutcome) (r : RateLimitResult) (st1 : EngineState),
      st.fallbackStorage.NoEmptyVals →
      checkRateLimit st key options now outcome = .ok (r, st1) →
      st1.fallbackStorage.NoEmptyVals) ∧
    (∀ key : String, st.fallbackStorage.NoEmptyVals →
      (decrementRateLimit st key).fallbackStorage.NoEmptyVals) ∧
    (∀ w : Int, (cleanupFallbackStorage st.fallbackStorage w).NoEmptyVals) ∧
    (onModuleDestroy st).fallbackStorage.NoEmptyVals := by
  refine ⟨?_, ?_, ?_, ?_⟩
  · intro key options now outcome r st1 hinv hcall
    cases hp : parseWindow options.window with
    | error e' =>
      simp only [checkRateLimit, hp] at hcall
      exact Except.noConfusion hcall
    | ok w =>
      simp only [checkRateLimit, hp] at hcall
      have hcore :
          fallbackRateLimit st.fallbackStorage key options now =
            .ok (fallbackCore st.fallbackStorage key options.requests now w) :=
        fallbackRateLimit_eq_core st.fallbackStorage key options now w hp
      by_cases hr : st.hasRedis = true
      · rw [if_pos hr] at hcall
        cases outcome with
        | ok c =>
          simp only [redisRateLimit, Except.ok.injEq] at hcall
          have : st1 = st := (congrArg Prod.snd hcall).symm
          rw [this]
          exact hinv
        | err =>
          simp only [redisRateLimit] at hcall
          rw [hcore] at hcall
          simp only [Except.ok.injEq] at hcall
          have : st1 = { st with fallbackStorage :=
              (fallbackCore st.fallbackStorage key options.requests now w).2 } :=
            (congrArg Prod.snd hcall).symm
          rw [this]
          exact fallbackCore_snd_noEmpty st.fallbackStorage key
            options.requests now w hinv
      · rw [if_neg hr] at hcall
        rw [hcore] at hcall
        simp only [Except.ok.injEq] at hcall
        have : st1 = { st with fallbackStorage :=
            (fallbackCore st.fallbackStorage key options.requests now w).2 } :=
          (congrArg Prod.snd hcall).symm
        rw [this]
        exact fallbackCore_snd_noEmpty st.fallbackStorage key
          options.requests now w hinv
  · intro key hinv
    unfold decrementRateLimit
    by_cases hr : st.hasRedis = true
    · simpa [hr] using hinv
    · simpa [hr] using decrementFallback_noEmpty st.fallbackStorage key hinv
  · intro w
    exact Storage.noEmpty_cleanup st.fallbackStorage w
  · intro p hp
    simp [onModuleDestroy] at hp

/-- C10 witness: the invariant holds after a concrete check, decrement,
cleanup and shutdown on a one-key engine state. -/
theorem noEmpty_invariant_C10_witness :
    (Storage.NoEmptyVals [("u1", [(100 : Int)])] ∧
      checkRateLimit { hasRedis := false, fallbackStorage := [("u1", [(100 : Int)])] }
          "u1" { requests := 3, window := "1m" } 200 RedisOutcome.err =
        .ok ({ allowed := true, remaining := 1,
               resetTime := 200 + ((60000 : Nat) : Int), totalHits := 2 },
          { hasRedis := false, fallbackStorage := [("u1", [(100 : Int), 200])] })) ∧
    Storage.NoEmptyVals (EngineState.fallbackStorage
      { hasRedis := false, fallbackStorage := [("u1", [(100 : Int), 200])] }) ∧
    Storage.NoEmptyVals (EngineState.fallbackStorage
      (decrementRateLimit
        { hasRedis := false, fallbackStorage := [("u1", [(100 : Int)])] } "u1")) :=
  ⟨⟨by decide, rfl⟩,
    (noEmpty_invariant_C10
        { hasRedis := false, fallbackStorage := [("u1", [(100 : Int)])] }).1
      "u1" { requests := 3, window := "1m" } 200 RedisOutcome.err
      { allowed := true, remaining := 1,
        resetTime := 200 + ((60000 : Nat) : Int), totalHits := 2 }
      { hasRedis := false, fallbackStorage := [("u1", [(100 : Int), 200])] }
      (by decide) rfl,
    (noEmpty_invariant_C10
        { hasRedis := false, fallbackStorage := [("u1", [(100 : Int)])] }).2.1
      "u1" (by decide)⟩

/-- C1: for a policy with limit `L ≥ 1` and a valid (positive) window,
starting from a well-formed state with no hits recorded for the key, a
sequence of `L + 1` local-memory checks issued at nondecreasing times all
within one window of the first yields `allowed = true` with
`totalHits = i` and `remaining = L − i` for the `i`-th call for every
`i ≤ L`, and `allowed = false` with `totalHits = L + 1` and
`remaining = 0` for the `(L + 1)`-th call. -/
theorem checkRateLimit_sequence_C1 (key : String) (options : RateLimitOptions)
    (L windowMs : Nat) (t0 : Int) (ts : List Int) (storage : Storage)
    (hL : options.requests = L) (hL1 : 1 ≤ L)
    (hw : parseWindow options.window = .ok windowMs) (hW : 1 ≤ windowMs)
    (hWF : storage.WF) (hkey : storage.get key = none)
    (hlen : (t0 :: ts).length = L + 1)
    (hsorted : (t0 :: ts).Sorted (· ≤ ·))
    (hwin : ∀ u ∈ t0 :: ts, u < t0 + (windowMs : Int)) :
    ∃ (results : List RateLimitResult) (storageF : Storage),
      runFallback key options storage (t0 :: ts) = some (results, storageF) ∧
      (∀ (j : Nat) (t : Int), j < L → (t0 :: ts)[j]? = some t →
        results[j]? = some { allowed := true, remaining := L - (j + 1),
                             resetTime := t + windowMs, totalHits := j + 1 }) ∧
      (∀ t : Int, (t0 :: ts)[L]? = some t →
        results[L]? = some { allowed := false, remaining := 0,
                             resetTime := t + windowMs, totalHits := L + 1 }) := by
  subst hL
  have hmin : ∀ a ∈ t0 :: ts, t0 ≤ a := by
    intro a ha
    rcases List.mem_cons.mp ha with rfl | ha'
    · exact le_refl a
    · exact (List.sorted_cons.mp hsorted).1 a ha'
  have hpw : (t0 :: ts).Pairwise (fun a b => b - (windowMs : Int) < a) := by
    refine List.Pairwise.imp_of_mem ?_ hsorted
    intro a b ha hb hab
    have h1 := hmin a ha
    have h2 := hwin b hb
    omega
  obtain ⟨results, storageF, hrun, hgetF, hWFF, hidx⟩ :=
    runFallback_spec key options windowMs hw hW (t0 :: ts) [] storage hWF
      (by simp [hkey]) (by intro t ht; simp at ht) hpw
  refine ⟨results, storageF, hrun, ?_, ?_⟩
  · intro j t hj ht
    have h := hidx j t ht
    rw [h]
    have hjL : j + 1 ≤ options.requests := hj
    simp [hjL]
  · intro t ht
    have h := hidx options.requests t ht
    rw [h]
    have h1 : ¬ (options.requests + 1 ≤ options.requests) := by omega
    have h2 : options.requests - (options.requests + 1) = 0 := by omega
    simp [h1, h2]

/-- C1 witness: the spec's own scenario — limit 3, window one minute, four
calls well inside the window from an empty state. -/
theorem checkRateLimit_sequence_C1_witness :
    (({ requests := 3, window := "1m" } : RateLimitOptions).requests = 3 ∧
      (1 : Nat) ≤ 3 ∧ parseWindow "1m" = .ok 60000 ∧ (1 : Nat) ≤ 60000 ∧
      Storage.WF [] ∧ Storage.get [] "u1" = none ∧
      ((0 : Int) :: [1, 2, 3]).length = 3 + 1 ∧
      ((0 : Int) :: [1, 2, 3]).Sorted (· ≤ ·) ∧
      (∀ u ∈ (0 : Int) :: [1, 2, 3], u < 0 + ((60000 : Nat) : Int))) ∧
    (∃ (results : List RateLimitResult) (storageF : Storage),
      runFallback "u1" { requests := 3, window := "1m" } []
          ((0 : Int) :: [1, 2, 3]) = some (results, storageF) ∧
      (∀ (j : Nat) (t : Int), j < 3 → ((0 : Int) :: [1, 2, 3])[j]? = some t →
        results[j]? = some { allowed := true, remaining := 3 - (j + 1),
                             resetTime := t + ((60000 : Nat) : Int),
                             totalHits := j + 1 }) ∧
      (∀ t : Int, ((0 : Int) :: [1, 2, 3])[3]? = some t →
        results[3]? = some { allowed := false, remaining := 0,
                             resetTime := t + ((60000 : Nat) : Int),
                             totalHits := 3 + 1 })) :=
  ⟨⟨rfl, by decide, rfl, by decide, by decide, rfl, by decide, by decide,
      by decide⟩,
    checkRateLimit_sequence_C1 "u1" { requests := 3, window := "1m" } 3 60000
      0 [1, 2, 3] [] rfl (by decide) rfl (by decide) (by decide) rfl
      (by decide) (by decide) (by decide)⟩

end RateLimit
